import Mathlib

/-!
Verification of the microblog data layer.

This file is a shallow embedding of the SQLAlchemy models and operations of
the microblog application (app/models.py, app/search.py, app/tasks.py,
app/main/routes.py) together with theorems about the timeline query, the
follow graph, notification coalescing, background-task finalization, the
password-reset and API tokens, and the Elasticsearch glue layer.

Conventions of the embedding:

* database tables are Lean lists of row structures; autoincrement primary
  keys and the wall clock are passed in explicitly wherever the code reads
  them (json timestamps are integers, which is faithful for every ordering
  property proved here);
* JSON serialization round-trips (json.loads(json.dumps(d)) = d), so a
  notification row stores the payload value itself and get_data returns it;
* side effects that touch neither the database nor the search index
  (rq job meta, outgoing email, logging) are outside the modelled state.
-/

namespace Microblog

/-- A JSON value: the payload type of notifications.  models.py stores
payload_json = json.dumps(data) and Notification.get_data decodes it with
json.loads; since that round-trips, the row stores the value directly. -/
inductive JsonValue where
  | null : JsonValue
  | boolVal (b : Bool) : JsonValue
  | num (n : Int) : JsonValue
  | str (s : String) : JsonValue
  | arr (elems : List JsonValue) : JsonValue
  | obj (fields : List (String × JsonValue)) : JsonValue

/-- A row of the user table (class User in app/models.py).  Only the columns
that the verified operations read are carried. -/
structure User where
  id : Nat
  username : String
  email : String
  token : Option String
  token_expiration : Option Int
deriving DecidableEq, Repr

/-- A row of the post table (class Post in app/models.py). -/
structure Post where
  id : Nat
  body : String
  timestamp : Int
  user_id : Nat
deriving DecidableEq, Repr

/-- A row of the message table (class Message in app/models.py). -/
structure Message where
  id : Nat
  sender_id : Nat
  recipient_id : Nat
  body : String
  timestamp : Int
deriving DecidableEq, Repr

/-- A row of the notification table (class Notification in app/models.py). -/
structure Notification where
  id : Nat
  name : String
  user_id : Nat
  timestamp : Int
  payload_json : JsonValue

/-- Notification.get_data: json.loads of the stored payload. -/
def Notification.get_data (n : Notification) : JsonValue :=
  n.payload_json

/-- A row of the task table (class Task in app/models.py); the id column is
the rq job id string. -/
structure Task where
  id : String
  name : String
  description : Option String
  user_id : Nat
  complete : Bool
deriving DecidableEq, Repr

/-- The relational store: one list per table.  follows is the followers
association table, a row (follower_id, followed_id) per edge. -/
structure DB where
  users : List User
  posts : List Post
  follows : List (Nat × Nat)
  notifications : List Notification
  tasks : List Task

/-- The rows reachable through self.following: users joined through the
followers association on follower_id = self.id. -/
def following_select (db : DB) (self : User) : List User :=
  db.users.filter (fun u => decide ((self.id, u.id) ∈ db.follows))

/-- User.is_following: the select over self.following restricted by
User.id == user.id is non-empty. -/
def is_following (db : DB) (self other : User) : Bool :=
  !((following_select db self).filter (fun u => u.id == other.id)).isEmpty

/-- User.follow: no-op if already following, else add the association row. -/
def follow (db : DB) (self other : User) : DB :=
  if is_following db self other then db
  else { db with follows := db.follows ++ [(self.id, other.id)] }

/-- User.unfollow: no-op if not following, else remove the association
row(s) linking self to other. -/
def unfollow (db : DB) (self other : User) : DB :=
  if is_following db self other then
    { db with follows := db.follows.filter (fun e => !(e == (self.id, other.id))) }
  else db

/-- User.followers_count: count of the rows of the followers select. -/
def followers_count (db : DB) (self : User) : Nat :=
  (db.users.filter (fun u => decide ((u.id, self.id) ∈ db.follows))).length

/-- User.following_count: count of the rows of the following select. -/
def following_count (db : DB) (self : User) : Nat :=
  (following_select db self).length

/-- User.add_notification: delete self's notifications carrying this name,
then insert a fresh row holding the new payload. -/
def add_notification (db : DB) (self : User) (name : String) (data : JsonValue)
    (freshId : Nat) (now : Int) : DB :=
  { db with notifications :=
      db.notifications.filter (fun n => !(n.user_id == self.id && n.name == name))
        ++ [{ id := freshId, name := name, user_id := self.id,
              timestamp := now, payload_json := data }] }

/-- The live notifications of one account under one name. -/
def live_notifications (db : DB) (uid : Nat) (name : String) : List Notification :=
  db.notifications.filter (fun n => n.user_id == uid && n.name == name)

/-- One recorded call to User.add_notification. -/
structure NotifyCall where
  user : User
  name : String
  data : JsonValue
  freshId : Nat
  now : Int

/-- Replay a sequence of add_notification calls. -/
def apply_calls (db : DB) (calls : List NotifyCall) : DB :=
  calls.foldl (fun d c => add_notification d c.user c.name c.data c.freshId c.now) db

/-- Filtering by a stronger predicate first is absorbed by the weaker one. -/
theorem filter_filter_of_imp {α : Type} {p q : α → Bool}
    (h : ∀ x, p x = true → q x = true) (l : List α) :
    (l.filter q).filter p = l.filter p := by
  induction l with
  | nil => rfl
  | cons a l ih =>
    by_cases hp : p a = true
    · have hq := h a hp
      simp [List.filter_cons, hp, hq, ih]
    · by_cases hq : q a = true <;> simp [List.filter_cons, hp, hq, ih]

theorem is_following_iff (db : DB) (self other : User) :
    is_following db self other = true ↔
      ∃ u ∈ db.users, u.id = other.id ∧ (self.id, u.id) ∈ db.follows := by
  simp [is_following, following_select, List.filter_filter, List.isEmpty_iff,
    List.filter_eq_nil_iff]

theorem follow_of_is_following {db : DB} {self other : User}
    (h : is_following db self other = true) : follow db self other = db := by
  simp [follow, h]

theorem unfollow_of_not_following {db : DB} {self other : User}
    (h : is_following db self other = false) : unfollow db self other = db := by
  simp [unfollow, h]

theorem is_following_follow (db : DB) (self other : User)
    (hmem : other ∈ db.users) :
    is_following (follow db self other) self other = true := by
  by_cases h : is_following db self other = true
  · rw [follow_of_is_following h]; exact h
  · rw [is_following_iff]
    refine ⟨other, ?_, rfl, ?_⟩
    · simpa [follow, h] using hmem
    · simp [follow, h]

theorem is_following_unfollow (db : DB) (self other : User) :
    is_following (unfollow db self other) self other = false := by
  by_cases h : is_following db self other = true
  · rw [Bool.eq_false_iff]
    intro hcon
    rw [is_following_iff] at hcon
    rcases hcon with ⟨u, hmem, hid, hfol⟩
    have hf : (self.id, u.id) ∈ db.follows.filter (fun e => !(e == (self.id, other.id))) := by
      simpa [unfollow, h] using hfol
    rcases List.mem_filter.mp hf with ⟨_, hne⟩
    rw [hid] at hne
    simp at hne
  · rw [unfollow_of_not_following (Bool.eq_false_iff.mpr h)]
    exact Bool.eq_false_iff.mpr h

/-- C7: follow establishes is_following, unfollow revokes it, and both
operations are idempotent: repeating either leaves the database state,
hence every follower count, identical to performing it once. -/
theorem follow_unfollow_contract :
    (∀ (db : DB) (self other : User), other ∈ db.users →
        is_following (follow db self other) self other = true)
  ∧ (∀ (db : DB) (self other : User),
        is_following (unfollow db self other) self other = false)
  ∧ (∀ (db : DB) (self other : User), other ∈ db.users →
        follow (follow db self other) self other = follow db self other)
  ∧ (∀ (db : DB) (self other : User),
        unfollow (unfollow db self other) self other = unfollow db self other) := by
  refine ⟨is_following_follow, is_following_unfollow, ?_, ?_⟩
  · intro db self other hmem
    exact follow_of_is_following (is_following_follow db self other hmem)
  · intro db self other
    exact unfollow_of_not_following (is_following_unfollow db self other)

/-- A sample pair of accounts and a database for the witnesses. -/
def alice : User :=
  { id := 1, username := "alice", email := "alice@example.com",
    token := none, token_expiration := none }

def bob : User :=
  { id := 2, username := "bob", email := "bob@example.com",
    token := none, token_expiration := none }

def sampleDB : DB :=
  { users := [alice, bob], posts := [], follows := [],
    notifications := [], tasks := [] }

/-- Witness for C7 at a concrete two-account database. -/
theorem follow_unfollow_contract_witness :
    is_following (follow sampleDB alice bob) alice bob = true
  ∧ is_following (unfollow sampleDB alice bob) alice bob = false
  ∧ follow (follow sampleDB alice bob) alice bob = follow sampleDB alice bob
  ∧ unfollow (unfollow sampleDB alice bob) alice bob = unfollow sampleDB alice bob :=
  ⟨follow_unfollow_contract.1 sampleDB alice bob (by simp [sampleDB]),
   follow_unfollow_contract.2.1 sampleDB alice bob,
   follow_unfollow_contract.2.2.1 sampleDB alice bob (by simp [sampleDB]),
   follow_unfollow_contract.2.2.2 sampleDB alice bob⟩

/-- Effect of one add_notification call on the live notifications of any
(account, name) pair: the written pair now holds exactly the fresh row,
every other pair is untouched. -/
theorem live_notifications_add (db : DB) (u : User) (nm : String) (v : JsonValue)
    (i : Nat) (t : Int) (uid : Nat) (nm' : String) :
    live_notifications (add_notification db u nm v i t) uid nm' =
      if uid = u.id ∧ nm' = nm then
        [{ id := i, name := nm, user_id := u.id, timestamp := t, payload_json := v }]
      else live_notifications db uid nm' := by
  by_cases h : uid = u.id ∧ nm' = nm
  · rcases h with ⟨h1, h2⟩
    subst h1; subst h2
    simp [live_notifications, add_notification, List.filter_append, List.filter_filter]
  · rw [if_neg h]
    have hnew : (u.id == uid && nm == nm') = false := by
      simp only [Bool.and_eq_false_iff, beq_eq_false_iff_ne, ne_eq]
      by_cases hu : uid = u.id
      · right
        intro hc
        exact h ⟨hu, hc.symm⟩
      · left
        intro hc
        exact hu hc.symm
    simp only [live_notifications, add_notification, List.filter_append,
      List.filter_cons, List.filter_nil, hnew]
    simp only [Bool.false_eq_true, if_false, List.append_nil]
    apply filter_filter_of_imp
    intro x hx
    simp only [Bool.and_eq_true, beq_iff_eq] at hx
    simp only [Bool.not_eq_true', Bool.and_eq_false_iff, beq_eq_false_iff_ne, ne_eq]
    by_cases hu : uid = u.id
    · have hn : nm' ≠ nm := fun hc => h ⟨hu, hc⟩
      right
      rw [hx.2]
      exact fun hc => hn hc
    · left
      rw [hx.1]
      exact hu

/-- C2: writing a notification coalesces: two writes under one name leave
exactly one live row whose payload decodes to the second value, and any
replay of add_notification calls preserves the at-most-one-live-row
invariant per (account, name) pair. -/
theorem notification_coalescing :
    (∀ (db : DB) (u : User) (nm : String) (v1 v2 : JsonValue)
        (i1 i2 : Nat) (t1 t2 : Int),
       live_notifications
           (add_notification (add_notification db u nm v1 i1 t1) u nm v2 i2 t2) u.id nm
         = [{ id := i2, name := nm, user_id := u.id, timestamp := t2, payload_json := v2 }]
     ∧ (live_notifications
           (add_notification (add_notification db u nm v1 i1 t1) u nm v2 i2 t2) u.id nm).map
          Notification.get_data = [v2])
  ∧ (∀ (db : DB) (calls : List NotifyCall),
       (∀ uid nm, (live_notifications db uid nm).length ≤ 1) →
       ∀ uid nm, (live_notifications (apply_calls db calls) uid nm).length ≤ 1) := by
  constructor
  · intro db u nm v1 v2 i1 i2 t1 t2
    have h := live_notifications_add (add_notification db u nm v1 i1 t1) u nm v2 i2 t2 u.id nm
    rw [if_pos ⟨rfl, rfl⟩] at h
    exact ⟨h, by rw [h]; rfl⟩
  · intro db calls
    induction calls generalizing db with
    | nil => intro h uid nm; exact h uid nm
    | cons c cs ih =>
      intro h uid nm
      refine ih (add_notification db c.user c.name c.data c.freshId c.now) ?_ uid nm
      intro uid' nm'
      rw [live_notifications_add]
      by_cases hc : uid' = c.user.id ∧ nm' = c.name
      · rw [if_pos hc]; simp
      · rw [if_neg hc]; exact h uid' nm'

/-- Witness for C2 at a concrete database. -/
theorem notification_coalescing_witness :
    live_notifications
        (add_notification (add_notification sampleDB alice "x" (.num 1) 10 100)
          alice "x" (.num 2) 11 101) alice.id "x"
      = [{ id := 11, name := "x", user_id := alice.id, timestamp := 101,
           payload_json := .num 2 }]
  ∧ (∀ uid nm,
      (live_notifications (apply_calls sampleDB
        [{ user := alice, name := "x", data := .num 1, freshId := 10, now := 100 },
         { user := alice, name := "x", data := .num 2, freshId := 11, now := 101 }]) uid nm).length ≤ 1) :=
  ⟨(notification_coalescing.1 sampleDB alice "x" (.num 1) (.num 2) 10 11 100 101).1,
   notification_coalescing.2 sampleDB _
     (by intro uid nm; simp [sampleDB, live_notifications])⟩

/-- C10: add_notification deletes only the rows of this account under this
name: the sublist of all other notifications, of any account and any other
name, is unchanged by the call. -/
theorem add_notification_frame :
    ∀ (db : DB) (u : User) (nm : String) (d : JsonValue) (i : Nat) (t : Int),
      (add_notification db u nm d i t).notifications.filter
          (fun m => !(m.user_id == u.id && m.name == nm))
        = db.notifications.filter (fun m => !(m.user_id == u.id && m.name == nm)) := by
  intro db u nm d i t
  simp [add_notification, List.filter_append, List.filter_filter]

/-- GET /notifications (app/main/routes.py, notifications): the current
user's notifications with timestamp strictly greater than since, ordered by
timestamp ascending. -/
def notifications_route (db : DB) (current_user : User) (since : Int) : List Notification :=
  List.insertionSort (fun a b => a.timestamp ≤ b.timestamp)
    (db.notifications.filter
      (fun n => n.user_id == current_user.id && decide (since < n.timestamp)))

instance : IsTotal Notification (fun a b => a.timestamp ≤ b.timestamp) :=
  ⟨fun a b => Int.le_total a.timestamp b.timestamp⟩

instance : IsTrans Notification (fun a b => a.timestamp ≤ b.timestamp) :=
  ⟨fun _ _ _ h1 h2 => le_trans h1 h2⟩

/-- C8: the notifications listing returns exactly the account's
notifications dated strictly after the threshold, in ascending timestamp
order; its size is monotonically non-decreasing as the threshold decreases,
and it is empty whenever the threshold is at or after every notification
timestamp of the account. -/
theorem notifications_route_spec :
    (∀ (db : DB) (u : User) (t : Int) (n : Notification),
        n ∈ notifications_route db u t ↔
          n ∈ db.notifications ∧ n.user_id = u.id ∧ t < n.timestamp)
  ∧ (∀ (db : DB) (u : User) (t : Int),
        List.Sorted (fun a b : Notification => a.timestamp ≤ b.timestamp)
          (notifications_route db u t))
  ∧ (∀ (db : DB) (u : User) (t t' : Int), t' ≤ t →
        (notifications_route db u t).length ≤ (notifications_route db u t').length)
  ∧ (∀ (db : DB) (u : User) (t : Int),
        (∀ n ∈ db.notifications, n.user_id = u.id → n.timestamp ≤ t) →
        notifications_route db u t = []) := by
  refine ⟨?_, ?_, ?_, ?_⟩
  · intro db u t n
    rw [notifications_route, List.mem_insertionSort, List.mem_filter]
    simp
  · intro db u t
    exact List.sorted_insertionSort _ _
  · intro db u t t' hle
    have h1 := (List.perm_insertionSort
      (fun a b : Notification => a.timestamp ≤ b.timestamp)
      (db.notifications.filter
        (fun n => n.user_id == u.id && decide (t < n.timestamp)))).length_eq
    have h2 := (List.perm_insertionSort
      (fun a b : Notification => a.timestamp ≤ b.timestamp)
      (db.notifications.filter
        (fun n => n.user_id == u.id && decide (t' < n.timestamp)))).length_eq
    rw [notifications_route, h1, notifications_route, h2,
      ← List.countP_eq_length_filter, ← List.countP_eq_length_filter]
    apply List.countP_mono_left
    intro n _ hn
    rw [Bool.and_eq_true] at hn
    rcases hn with ⟨hu, ht⟩
    rw [Bool.and_eq_true]
    exact ⟨hu, by simp at ht ⊢; omega⟩
  · intro db u t h
    rw [notifications_route]
    have : db.notifications.filter
        (fun n => n.user_id == u.id && decide (t < n.timestamp)) = [] := by
      rw [List.filter_eq_nil_iff]
      intro n hn
      rw [Bool.and_eq_true]
      rintro ⟨hu, ht⟩
      have := h n hn (by simpa using hu)
      simp at ht
      omega
    rw [this]
    rfl

/-- Witness for C8: monotonicity and the emptiness condition at a concrete
database. -/
theorem notifications_route_spec_witness :
    (notifications_route sampleDB alice 5).length ≤
        (notifications_route sampleDB alice 0).length
  ∧ notifications_route sampleDB alice 200 = [] :=
  ⟨notifications_route_spec.2.2.1 sampleDB alice 5 0 (by decide),
   notifications_route_spec.2.2.2 sampleDB alice 200
     (by intro n hn _; simp [sampleDB] at hn)⟩

/-- A password-reset JWT: either a well-formed token signed with a secret,
carrying the reset_password claim and the exp claim, or a malformed
string.  jwt.decode succeeds exactly on a token signed with the verifying
secret whose exp lies in the future; every other outcome raises and is
caught. -/
inductive ResetToken where
  | signed (secret : String) (reset_password : Nat) (exp : Int)
  | malformed (s : String)
deriving DecidableEq, Repr

/-- User.get_reset_password_token: a token signed with the application
secret holding the user's id, expiring expires_in seconds from now. -/
def get_reset_password_token (self : User) (secret : String) (now expires_in : Int) :
    ResetToken :=
  .signed secret self.id (now + expires_in)

/-- User.verify_reset_password_token: decode the token (returning none on
any decode error, including bad signature and expiry), then load the user
by the decoded id. -/
def verify_reset_password_token (db : DB) (secret : String) (now : Int)
    (token : ResetToken) : Option User :=
  match token with
  | .malformed _ => none
  | .signed s uid exp =>
    if s == secret && decide (now < exp) then
      db.users.find? (fun u => u.id == uid)
    else none

/-- User.revoke_token: push the user's token expiration one second into the
past. -/
def revoke_token (db : DB) (self : User) (now : Int) : DB :=
  { db with users := db.users.map (fun u =>
      if u.id == self.id then { u with token_expiration := some (now - 1) } else u) }

/-- User.check_token: load the user holding this API token; none when no
user holds it or its expiration lies strictly in the past.  A row holding a
token always carries an expiration (get_token writes both); the none leg of
that match is unreachable in the application. -/
def check_token (db : DB) (token : String) (now : Int) : Option User :=
  match db.users.find? (fun u => u.token == some token) with
  | none => none
  | some user =>
    match user.token_expiration with
    | none => none
    | some exp => if decide (exp < now) then none else some user

theorem find_by_id_of_mem {l : List User} (hnd : (l.map User.id).Nodup)
    {u : User} (hmem : u ∈ l) :
    l.find? (fun x => x.id == u.id) = some u := by
  induction l with
  | nil => cases hmem
  | cons a l ih =>
    rcases List.mem_cons.mp hmem with h | h
    · subst h
      exact List.find?_cons_of_pos _ (by simp)
    · rw [List.map_cons, List.nodup_cons] at hnd
      have hne : a.id ≠ u.id := by
        intro hc
        exact hnd.1 (hc ▸ List.mem_map_of_mem User.id h)
      rw [List.find?_cons_of_neg _ (by simp [hne])]
      exact ih hnd.2 h

/-- C9: verification of an invalid or expired token yields an absent result
rather than raising: verify_reset_password_token returns none on malformed,
wrongly-signed or expired reset tokens and returns the issuing account on a
valid one; check_token returns none when no account holds the token or the
holder's expiry lies in the past, including after revoke_token, and returns
the holder on a valid, non-expired token. -/
theorem token_verification_spec :
    (∀ (db : DB) (secret : String) (now : Int) (s : String),
        verify_reset_password_token db secret now (.malformed s) = none)
  ∧ (∀ (db : DB) (secret s : String) (now exp : Int) (uid : Nat), s ≠ secret →
        verify_reset_password_token db secret now (.signed s uid exp) = none)
  ∧ (∀ (db : DB) (secret : String) (now exp : Int) (uid : Nat), exp ≤ now →
        verify_reset_password_token db secret now (.signed secret uid exp) = none)
  ∧ (∀ (db : DB) (secret : String) (t0 ein now : Int) (u : User),
        u ∈ db.users → (db.users.map User.id).Nodup → now < t0 + ein →
        verify_reset_password_token db secret now
          (get_reset_password_token u secret t0 ein) = some u)
  ∧ (∀ (db : DB) (tok : String) (now : Int),
        (∀ u ∈ db.users, u.token ≠ some tok) → check_token db tok now = none)
  ∧ (∀ (db : DB) (tok : String) (now exp : Int) (u : User),
        db.users.find? (fun x => x.token == some tok) = some u →
        u.token_expiration = some exp → exp < now →
        check_token db tok now = none)
  ∧ (∀ (db : DB) (tok : String) (now exp : Int) (u : User),
        db.users.find? (fun x => x.token == some tok) = some u →
        u.token_expiration = some exp → now ≤ exp →
        check_token db tok now = some u)
  ∧ (∀ (db : DB) (tok : String) (now now2 : Int) (u : User),
        db.users.find? (fun x => x.token == some tok) = some u →
        now ≤ now2 →
        check_token (revoke_token db u now) tok now2 = none) := by
  refine ⟨?_, ?_, ?_, ?_, ?_, ?_, ?_, ?_⟩
  · intro db secret now s
    rfl
  · intro db secret s now exp uid hne
    simp [verify_reset_password_token, hne]
  · intro db secret now exp uid hle
    simp [verify_reset_password_token, Int.not_lt.mpr hle]
  · intro db secret t0 ein now u hmem hnd hfresh
    rw [get_reset_password_token, verify_reset_password_token]
    rw [if_pos (by simp; omega)]
    exact find_by_id_of_mem hnd hmem
  · intro db tok now h
    have hfind : db.users.find? (fun u => u.token == some tok) = none := by
      rw [List.find?_eq_none]
      intro u hu
      simp [h u hu]
    rw [check_token, hfind]
  · intro db tok now exp u hfind hexp hlt
    simp [check_token, hfind, hexp, hlt]
  · intro db tok now exp u hfind hexp hle
    simp [check_token, hfind, hexp, Int.not_lt.mpr hle]
  · intro db tok now now2 u hfind hle
    have hmap : (revoke_token db u now).users.find? (fun x => x.token == some tok)
        = some (if u.id == u.id then { u with token_expiration := some (now - 1) } else u) := by
      rw [revoke_token]
      rw [List.find?_map]
      have hp : ((fun x : User => x.token == some tok) ∘
          (fun x : User => if x.id == u.id then { x with token_expiration := some (now - 1) } else x))
          = (fun x : User => x.token == some tok) := by
        funext x
        simp only [Function.comp_apply]
        by_cases hx : x.id = u.id
        · simp [hx]
        · simp [hx]
      rw [hp, hfind]
      rfl
    rw [check_token, hmap]
    have h2 : now - 1 < now2 := by omega
    simp [h2]

/-- A third account holding a live API token, and a database containing it,
for the C9 witness. -/
def carol : User :=
  { id := 3, username := "carol", email := "carol@example.com",
    token := some "tok", token_expiration := some 1000 }

def tokenDB : DB :=
  { users := [alice, carol], posts := [], follows := [],
    notifications := [], tasks := [] }

/-- Witness for C9 at a concrete database and concrete tokens. -/
theorem token_verification_spec_witness :
    verify_reset_password_token tokenDB "k" 0 (.signed "a" 1 50) = none
  ∧ verify_reset_password_token tokenDB "k" 60 (.signed "k" 1 50) = none
  ∧ verify_reset_password_token tokenDB "k" 10
      (get_reset_password_token alice "k" 0 600) = some alice
  ∧ check_token tokenDB "zzz" 0 = none
  ∧ check_token tokenDB "tok" 2000 = none
  ∧ check_token tokenDB "tok" 500 = some carol
  ∧ check_token (revoke_token tokenDB carol 500) "tok" 600 = none :=
  ⟨token_verification_spec.2.1 tokenDB "k" "a" 0 50 1 (by decide),
   token_verification_spec.2.2.1 tokenDB "k" 60 50 1 (by decide),
   token_verification_spec.2.2.2.1 tokenDB "k" 0 600 10 alice (by decide)
     (by decide) (by decide),
   token_verification_spec.2.2.2.2.1 tokenDB "zzz" 0 (by decide),
   token_verification_spec.2.2.2.2.2.1 tokenDB "tok" 2000 1000 carol
     (by decide) (by decide) (by decide),
   token_verification_spec.2.2.2.2.2.2.1 tokenDB "tok" 500 1000 carol
     (by decide) (by decide) (by decide),
   token_verification_spec.2.2.2.2.2.2.2 tokenDB "tok" 500 600 carol
     (by decide) (by decide)⟩

/-- tasks.py _set_task_progress: when running under a job, write the
progress into the job meta (external to the database, hence outside the
state), coalesce a task_progress notification for the task's owner, mark
the task complete once progress reaches 100, and commit.  Returns none
when the Task row of the job or its owner is missing, the situations in
which the Python code would raise; in the worker context both rows exist,
launch_task having inserted the Task row under the enqueued job id. -/
def set_task_progress (job : Option String) (progress : Int)
    (freshId : Nat) (now : Int) (db : DB) : Option DB :=
  match job with
  | none => some db
  | some jobId =>
    match db.tasks.find? (fun x => x.id == jobId) with
    | none => none
    | some task =>
      match db.users.find? (fun u => u.id == task.user_id) with
      | none => none
      | some owner =>
        let db1 := add_notification db owner "task_progress"
          (.obj [("task_id", .str jobId), ("progress", .num progress)]) freshId now
        if progress ≥ 100 then
          some { db1 with tasks := db1.tasks.map (fun x =>
            if x.id == jobId then { x with complete := true } else x) }
        else some db1

/-- tasks.py export_posts with its try block abstracted as a state
transformer returning the state it reached and an error when it raised
partway through: the except arm reports progress 100 and logs the error,
and the finally arm reports progress 100 again; outgoing email and logging
are external side effects.  A failure inside the finalization itself
(impossible while the Task row and its owner exist) propagates as none. -/
def run_export_posts (body : DB → DB × Option String) (job : Option String)
    (i1 i2 : Nat) (t1 t2 : Int) (db : DB) : Option DB :=
  let res := body db
  match res.2 with
  | some _ =>
    (set_task_progress job 100 i1 t1 res.1).bind (set_task_progress job 100 i2 t2)
  | none => set_task_progress job 100 i2 t2 res.1

theorem find_task_map_complete {l : List Task} {jid : String} {task : Task}
    (h : l.find? (fun x => x.id == jid) = some task) :
    (l.map (fun x => if x.id == jid then { x with complete := true } else x)).find?
        (fun x => x.id == jid) = some { task with complete := true } := by
  rw [List.find?_map]
  have hp : ((fun x : Task => x.id == jid) ∘ (fun x : Task =>
      if x.id == jid then { x with complete := true } else x))
      = (fun x : Task => x.id == jid) := by
    funext x
    simp only [Function.comp_apply]
    by_cases hx : x.id = jid
    · simp [hx]
    · simp [hx]
  rw [hp, h]
  have hid : (task.id == jid) = true := by
    have h2 := List.find?_some h
    simpa using h2
  simp [hid]
  intro hc
  exact absurd (by simpa using hid) hc

/-- Effect of one progress-100 report: the job's task ends complete, users
are untouched, the owner's task_progress pair holds exactly the fresh row,
and every other (account, name) pair is untouched. -/
theorem set_task_progress_100_spec (db : DB) (jid : String) (i : Nat) (t : Int)
    {task : Task} {owner : User}
    (htask : db.tasks.find? (fun x => x.id == jid) = some task)
    (howner : db.users.find? (fun u => u.id == task.user_id) = some owner) :
    ∃ d, set_task_progress (some jid) 100 i t db = some d
      ∧ d.tasks.find? (fun x => x.id == jid) = some { task with complete := true }
      ∧ d.users = db.users
      ∧ live_notifications d owner.id "task_progress"
          = [{ id := i, name := "task_progress", user_id := owner.id, timestamp := t,
               payload_json := .obj [("task_id", .str jid), ("progress", .num 100)] }]
      ∧ (∀ uid nm, ¬(uid = owner.id ∧ nm = "task_progress") →
            live_notifications d uid nm = live_notifications db uid nm) := by
  refine ⟨{ add_notification db owner "task_progress"
              (.obj [("task_id", .str jid), ("progress", .num 100)]) i t with
            tasks := db.tasks.map (fun x =>
              if x.id == jid then { x with complete := true } else x) }, ?_, ?_, rfl, ?_, ?_⟩
  · simp only [set_task_progress, htask, howner]
    norm_num
    rfl
  · exact find_task_map_complete htask
  · have h := live_notifications_add db owner "task_progress"
      (.obj [("task_id", .str jid), ("progress", .num 100)]) i t owner.id "task_progress"
    rw [if_pos ⟨rfl, rfl⟩] at h
    exact h
  · intro uid nm hne
    have h := live_notifications_add db owner "task_progress"
      (.obj [("task_id", .str jid), ("progress", .num 100)]) i t uid nm
    rw [if_neg hne] at h
    exact h

/-- C3: whenever the body of the export job raises partway through, the
guaranteed finalization path still completes without surfacing the error:
the owning Task row ends with its complete flag true and the owner holds
exactly one coalesced task_progress notification, whose payload reports
progress 100. -/
theorem export_posts_finalizes :
    ∀ (body : DB → DB × Option String) (db : DB) (jid err : String)
      (task : Task) (owner : User) (i1 i2 : Nat) (t1 t2 : Int),
      (body db).2 = some err →
      (body db).1.tasks.find? (fun x => x.id == jid) = some task →
      (body db).1.users.find? (fun u => u.id == task.user_id) = some owner →
      ∃ db2, run_export_posts body (some jid) i1 i2 t1 t2 db = some db2
        ∧ db2.tasks.find? (fun x => x.id == jid) = some { task with complete := true }
        ∧ live_notifications db2 owner.id "task_progress"
            = [{ id := i2, name := "task_progress", user_id := owner.id,
                 timestamp := t2,
                 payload_json := .obj [("task_id", .str jid), ("progress", .num 100)] }] := by
  intro body db jid err task owner i1 i2 t1 t2 herr htask howner
  obtain ⟨dA, hA, hAtask, hAusers, hAlive, hAframe⟩ :=
    set_task_progress_100_spec (body db).1 jid i1 t1 htask howner
  have howner2 : dA.users.find?
      (fun u => u.id == ({ task with complete := true } : Task).user_id) = some owner := by
    rw [hAusers]
    exact howner
  obtain ⟨dB, hB, hBtask, hBusers, hBlive, hBframe⟩ :=
    set_task_progress_100_spec dA jid i2 t2 hAtask howner2
  refine ⟨dB, ?_, ?_, ?_⟩
  · simp only [run_export_posts, herr]
    rw [hA]
    exact hB
  · exact hBtask
  · exact hBlive

/-- A task row, a database owning it, and an always-raising body for the C3
witness. -/
def taskRow : Task :=
  { id := "job1", name := "export_posts", description := some "Exporting posts...",
    user_id := 1, complete := false }

def taskDB : DB :=
  { users := [alice], posts := [], follows := [],
    notifications := [], tasks := [taskRow] }

def failingBody : DB → DB × Option String :=
  fun d => (d, some "boom")

/-- Witness for C3 on a concrete raising job. -/
theorem export_posts_finalizes_witness :
    ∃ db2, run_export_posts failingBody (some "job1") 7 8 50 60 taskDB = some db2
      ∧ db2.tasks.find? (fun x => x.id == "job1") = some { taskRow with complete := true }
      ∧ live_notifications db2 alice.id "task_progress"
          = [{ id := 8, name := "task_progress", user_id := alice.id, timestamp := 60,
               payload_json := .obj [("task_id", .str "job1"), ("progress", .num 100)] }] :=
  export_posts_finalizes failingBody taskDB "job1" "boom" taskRow alice 7 8 50 60
    (by decide) (by decide) (by decide)

/-- A document held by the search engine: the index it lives in, its
document id (the entity's primary key) and the indexed fields. -/
structure IndexEntry where
  index : String
  docId : Nat
  document : List (String × String)
deriving DecidableEq, Repr

/-- current_app.elasticsearch: none models the engine being unconfigured or
unavailable, some holds the indexed documents. -/
abbrev Elasticsearch := Option (List IndexEntry)

/-- An ORM object passing through a session, as dispatched on by
after_commit: Post carries the searchable capability (SearchableMixin with
searchable fields ['body']); User and Message do not. -/
inductive Entity where
  | post (p : Post)
  | user (u : User)
  | message (m : Message)
deriving DecidableEq, Repr

/-- isinstance(obj, SearchableMixin). -/
def Entity.searchable : Entity → Bool
  | .post _ => true
  | .user _ => false
  | .message _ => false

/-- obj.tablename, the index name of the entity's type. -/
def Entity.tablename : Entity → String
  | .post _ => "post"
  | .user _ => "user"
  | .message _ => "message"

/-- obj.id, the primary key used as the engine document id. -/
def Entity.entityId : Entity → Nat
  | .post p => p.id
  | .user u => u.id
  | .message m => m.id

/-- The payload built from the model's searchable fields; only reached for
searchable models (a model without searchable fields would raise). -/
def Entity.document : Entity → List (String × String)
  | .post p => [("body", p.body)]
  | .user _ => []
  | .message _ => []

/-- search.py add_to_index: no-op when the engine is not configured, else
upsert the document under (index, id) — an existing entry with that id is
replaced. -/
def add_to_index (es : Elasticsearch) (index : String) (e : Entity) : Elasticsearch :=
  match es with
  | none => none
  | some entries =>
    some (entries.filter (fun en => !(en.index == index && en.docId == e.entityId))
      ++ [{ index := index, docId := e.entityId, document := e.document }])

/-- search.py remove_from_index: no-op when the engine is not configured,
else delete the document under (index, id). -/
def remove_from_index (es : Elasticsearch) (index : String) (e : Entity) : Elasticsearch :=
  match es with
  | none => none
  | some entries =>
    some (entries.filter (fun en => !(en.index == index && en.docId == e.entityId)))

/-- The engine's ranked answer to a query — ids and total — is external
behaviour of Elasticsearch, abstracted as an oracle. -/
abbrev SearchOracle := String → String → Nat → Nat → List Nat × Nat

/-- search.py query_index: an empty answer when the engine is not
configured, else the engine's ranked ids and total. -/
def query_index (oracle : SearchOracle) (es : Elasticsearch)
    (index query : String) (page per_page : Nat) : List Nat × Nat :=
  match es with
  | none => ([], 0)
  | some _ => oracle index query page per_page

/-- The session snapshot taken by SearchableMixin.before_commit:
session.new, session.dirty and session.deleted. -/
structure SessionChanges where
  added : List Entity
  updated : List Entity
  deleted : List Entity

/-- One added or updated object replayed by after_commit: an engine upsert
when it is searchable, nothing otherwise. -/
def apply_add (s : Elasticsearch) (obj : Entity) : Elasticsearch :=
  if obj.searchable then add_to_index s obj.tablename obj else s

/-- One deleted object replayed by after_commit: an engine delete when it
is searchable, nothing otherwise. -/
def apply_delete (s : Elasticsearch) (obj : Entity) : Elasticsearch :=
  if obj.searchable then remove_from_index s obj.tablename obj else s

/-- SearchableMixin.after_commit: replay the snapshot against the engine —
upsert every added and updated searchable object, remove every deleted
searchable one; objects that are not searchable trigger no engine call. -/
def after_commit (changes : SessionChanges) (es : Elasticsearch) : Elasticsearch :=
  let es1 := changes.added.foldl apply_add es
  let es2 := changes.updated.foldl apply_add es1
  changes.deleted.foldl apply_delete es2

/-- Engine lookup of the document indexed under (index, id). -/
def esLookup (entries : List IndexEntry) (index : String) (docId : Nat) :
    Option IndexEntry :=
  entries.find? (fun en => en.index == index && en.docId == docId)

/-- Engine lookup through the optional engine handle. -/
def esLookupO (es : Elasticsearch) (index : String) (docId : Nat) :
    Option IndexEntry :=
  match es with
  | none => none
  | some entries => esLookup entries index docId

/-- The entries-level effect of apply_add, for a configured engine. -/
def apply_addE (entries : List IndexEntry) (obj : Entity) : List IndexEntry :=
  if obj.searchable then
    entries.filter (fun en => !(en.index == obj.tablename && en.docId == obj.entityId))
      ++ [{ index := obj.tablename, docId := obj.entityId, document := obj.document }]
  else entries

/-- The entries-level effect of apply_delete, for a configured engine. -/
def apply_deleteE (entries : List IndexEntry) (obj : Entity) : List IndexEntry :=
  if obj.searchable then
    entries.filter (fun en => !(en.index == obj.tablename && en.docId == obj.entityId))
  else entries

theorem apply_add_some (entries : List IndexEntry) (obj : Entity) :
    apply_add (some entries) obj = some (apply_addE entries obj) := by
  by_cases h : obj.searchable = true <;>
    simp [apply_add, add_to_index, apply_addE, h]

theorem apply_delete_some (entries : List IndexEntry) (obj : Entity) :
    apply_delete (some entries) obj = some (apply_deleteE entries obj) := by
  by_cases h : obj.searchable = true <;>
    simp [apply_delete, remove_from_index, apply_deleteE, h]

theorem foldl_apply_add_some (os : List Entity) :
    ∀ entries : List IndexEntry,
      os.foldl apply_add (some entries) = some (os.foldl apply_addE entries) := by
  induction os with
  | nil => intro entries; rfl
  | cons o os ih =>
    intro entries
    rw [List.foldl_cons, List.foldl_cons, apply_add_some]
    exact ih _

theorem foldl_apply_delete_some (os : List Entity) :
    ∀ entries : List IndexEntry,
      os.foldl apply_delete (some entries) = some (os.foldl apply_deleteE entries) := by
  induction os with
  | nil => intro entries; rfl
  | cons o os ih =>
    intro entries
    rw [List.foldl_cons, List.foldl_cons, apply_delete_some]
    exact ih _

theorem find?_filter_of_imp {α : Type} {p q : α → Bool}
    (h : ∀ x, p x = true → q x = true) (l : List α) :
    (l.filter q).find? p = l.find? p := by
  induction l with
  | nil => rfl
  | cons a l ih =>
    by_cases hp : p a = true
    · have hq := h a hp
      rw [List.filter_cons, if_pos hq, List.find?_cons_of_pos _ hp,
        List.find?_cons_of_pos _ hp]
    · by_cases hq : q a = true
      · rw [List.filter_cons, if_pos hq, List.find?_cons_of_neg _ (by simp [hp]),
          List.find?_cons_of_neg _ (by simp [hp])]
        exact ih
      · rw [List.filter_cons, if_neg hq, List.find?_cons_of_neg _ (by simp [hp])]
        exact ih

theorem esLookup_apply_addE (entries : List IndexEntry) (obj : Entity)
    (i : String) (d : Nat) :
    esLookup (apply_addE entries obj) i d =
      if obj.searchable = true ∧ obj.tablename = i ∧ obj.entityId = d then
        some { index := i, docId := d, document := obj.document }
      else esLookup entries i d := by
  by_cases hs : obj.searchable = true
  · rw [apply_addE, if_pos hs]
    by_cases hk : obj.tablename = i ∧ obj.entityId = d
    · rw [if_pos ⟨hs, hk⟩]
      rcases hk with ⟨hk1, hk2⟩
      subst hk1; subst hk2
      rw [esLookup, List.find?_append]
      have h1 : (entries.filter (fun en =>
          !(en.index == obj.tablename && en.docId == obj.entityId))).find?
          (fun en => en.index == obj.tablename && en.docId == obj.entityId) = none := by
        rw [List.find?_eq_none]
        intro en hen
        rcases List.mem_filter.mp hen with ⟨_, hne⟩
        simp only [Bool.not_eq_true'] at hne
        simp [hne]
      rw [h1]
      simp
    · rw [if_neg (fun hc => hk hc.2)]
      rw [esLookup, List.find?_append]
      have h2 : (([({ index := obj.tablename, docId := obj.entityId, document := obj.document } : IndexEntry)]).find?
          (fun en => en.index == i && en.docId == d)) = none := by
        rw [List.find?_eq_none]
        intro en hen
        rw [List.mem_singleton] at hen
        subst hen
        simp only [Bool.and_eq_true, beq_iff_eq, not_and]
        intro h1 h2
        exact hk ⟨h1, h2⟩
      rw [h2]
      rw [esLookup, find?_filter_of_imp]
      · cases entries.find? (fun en => en.index == i && en.docId == d) <;> rfl
      · intro x hx
        simp only [Bool.and_eq_true, beq_iff_eq] at hx
        simp only [Bool.not_eq_true', Bool.and_eq_false_iff, beq_eq_false_iff_ne, ne_eq]
        by_cases h1 : obj.tablename = i
        · right
          rw [hx.2]
          intro hc
          exact hk ⟨h1, hc.symm⟩
        · left
          rw [hx.1]
          intro hc
          exact h1 hc.symm
  · rw [apply_addE, if_neg hs, if_neg (fun hc => hs hc.1)]

theorem esLookup_apply_deleteE (entries : List IndexEntry) (obj : Entity)
    (i : String) (d : Nat) :
    esLookup (apply_deleteE entries obj) i d =
      if obj.searchable = true ∧ obj.tablename = i ∧ obj.entityId = d then none
      else esLookup entries i d := by
  by_cases hs : obj.searchable = true
  · rw [apply_deleteE, if_pos hs]
    by_cases hk : obj.tablename = i ∧ obj.entityId = d
    · rw [if_pos ⟨hs, hk⟩]
      rcases hk with ⟨hk1, hk2⟩
      subst hk1; subst hk2
      rw [esLookup, List.find?_eq_none]
      intro en hen
      rcases List.mem_filter.mp hen with ⟨_, hne⟩
      simp only [Bool.not_eq_true'] at hne
      simp [hne]
    · rw [if_neg (fun hc => hk hc.2)]
      rw [esLookup, esLookup, find?_filter_of_imp]
      intro x hx
      simp only [Bool.and_eq_true, beq_iff_eq] at hx
      simp only [Bool.not_eq_true', Bool.and_eq_false_iff, beq_eq_false_iff_ne, ne_eq]
      by_cases h1 : obj.tablename = i
      · right
        rw [hx.2]
        intro hc
        exact hk ⟨h1, hc.symm⟩
      · left
        rw [hx.1]
        intro hc
        exact h1 hc.symm
  · rw [apply_deleteE, if_neg hs, if_neg (fun hc => hs hc.1)]

theorem esLookup_foldl_addE_untouched (os : List Entity) (i : String) (d : Nat) :
    ∀ entries : List IndexEntry,
      (∀ o ∈ os, ¬(o.searchable = true ∧ o.tablename = i ∧ o.entityId = d)) →
      esLookup (os.foldl apply_addE entries) i d = esLookup entries i d := by
  induction os with
  | nil => intro entries _; rfl
  | cons o os ih =>
    intro entries h
    rw [List.foldl_cons]
    rw [ih _ (fun o' ho' => h o' (List.mem_cons_of_mem _ ho'))]
    rw [esLookup_apply_addE, if_neg (h o (List.mem_cons_self _ _))]

theorem esLookup_foldl_deleteE_untouched (os : List Entity) (i : String) (d : Nat) :
    ∀ entries : List IndexEntry,
      (∀ o ∈ os, ¬(o.searchable = true ∧ o.tablename = i ∧ o.entityId = d)) →
      esLookup (os.foldl apply_deleteE entries) i d = esLookup entries i d := by
  induction os with
  | nil => intro entries _; rfl
  | cons o os ih =>
    intro entries h
    rw [List.foldl_cons]
    rw [ih _ (fun o' ho' => h o' (List.mem_cons_of_mem _ ho'))]
    rw [esLookup_apply_deleteE, if_neg (h o (List.mem_cons_self _ _))]

theorem esLookup_foldl_deleteE_none (os : List Entity) (i : String) (d : Nat) :
    ∀ entries : List IndexEntry, esLookup entries i d = none →
      esLookup (os.foldl apply_deleteE entries) i d = none := by
  induction os with
  | nil => intro entries h; exact h
  | cons o os ih =>
    intro entries h
    rw [List.foldl_cons]
    apply ih
    rw [esLookup_apply_deleteE]
    by_cases hc : o.searchable = true ∧ o.tablename = i ∧ o.entityId = d
    · rw [if_pos hc]
    · rw [if_neg hc]; exact h

theorem esLookup_foldl_addE_hit (os : List Entity) :
    ∀ entries : List IndexEntry,
      ((os.filter (fun o => o.searchable)).map (fun o => (o.tablename, o.entityId))).Nodup →
      ∀ e ∈ os, e.searchable = true →
      esLookup (os.foldl apply_addE entries) e.tablename e.entityId
        = some { index := e.tablename, docId := e.entityId, document := e.document } := by
  induction os with
  | nil => intro _ _ e hmem; cases hmem
  | cons o os ih =>
    intro entries hnd e hmem hse
    rw [List.foldl_cons]
    rcases List.mem_cons.mp hmem with heq | hmem'
    · subst heq
      simp only [List.filter_cons] at hnd
      rw [if_pos hse, List.map_cons, List.nodup_cons] at hnd
      have huntouched : ∀ o' ∈ os,
          ¬(o'.searchable = true ∧ o'.tablename = e.tablename ∧ o'.entityId = e.entityId) := by
        rintro o' ho' ⟨hs', h1, h2⟩
        apply hnd.1
        have hm1 : o' ∈ os.filter (fun o => o.searchable) :=
          List.mem_filter.mpr ⟨ho', hs'⟩
        have hm2 : (o'.tablename, o'.entityId) ∈
            (os.filter (fun o => o.searchable)).map (fun o => (o.tablename, o.entityId)) :=
          List.mem_map_of_mem _ hm1
        rw [h1, h2] at hm2
        exact hm2
      rw [esLookup_foldl_addE_untouched os e.tablename e.entityId _ huntouched]
      rw [esLookup_apply_addE, if_pos ⟨hse, rfl, rfl⟩]
    · have hnd' : ((os.filter (fun o => o.searchable)).map
          (fun o => (o.tablename, o.entityId))).Nodup := by
        simp only [List.filter_cons] at hnd
        by_cases hso : o.searchable = true
        · rw [if_pos hso, List.map_cons, List.nodup_cons] at hnd
          exact hnd.2
        · rwa [if_neg hso] at hnd
      exact ih (apply_addE entries o) hnd' e hmem' hse

theorem esLookup_foldl_deleteE_hit (os : List Entity) :
    ∀ entries : List IndexEntry, ∀ e ∈ os, e.searchable = true →
      esLookup (os.foldl apply_deleteE entries) e.tablename e.entityId = none := by
  induction os with
  | nil => intro _ e hmem; cases hmem
  | cons o os ih =>
    intro entries e hmem hse
    rw [List.foldl_cons]
    rcases List.mem_cons.mp hmem with heq | hmem'
    · subst heq
      apply esLookup_foldl_deleteE_none
      rw [esLookup_apply_deleteE, if_pos ⟨hse, rfl, rfl⟩]
    · exact ih _ e hmem' hse

theorem foldl_apply_add_filter (os : List Entity) :
    ∀ es : Elasticsearch,
      (os.filter (fun o => o.searchable)).foldl apply_add es = os.foldl apply_add es := by
  induction os with
  | nil => intro es; rfl
  | cons o os ih =>
    intro es
    simp only [List.filter_cons]
    by_cases hso : o.searchable = true
    · rw [if_pos hso, List.foldl_cons, List.foldl_cons, ih]
    · rw [if_neg hso, List.foldl_cons, ih]
      have hskip : apply_add es o = es := by rw [apply_add, if_neg hso]
      rw [hskip]

theorem foldl_apply_delete_filter (os : List Entity) :
    ∀ es : Elasticsearch,
      (os.filter (fun o => o.searchable)).foldl apply_delete es = os.foldl apply_delete es := by
  induction os with
  | nil => intro es; rfl
  | cons o os ih =>
    intro es
    simp only [List.filter_cons]
    by_cases hso : o.searchable = true
    · rw [if_pos hso, List.foldl_cons, List.foldl_cons, ih]
    · rw [if_neg hso, List.foldl_cons, ih]
      have hskip : apply_delete es o = es := by rw [apply_delete, if_neg hso]
      rw [hskip]

theorem after_commit_some (changes : SessionChanges) (idx : List IndexEntry) :
    after_commit changes (some idx)
      = some (changes.deleted.foldl apply_deleteE
          ((changes.added ++ changes.updated).foldl apply_addE idx)) := by
  simp only [after_commit]
  rw [foldl_apply_add_some, foldl_apply_add_some, foldl_apply_delete_some,
    List.foldl_append]

/-- C4: after a committed transaction, every added or updated searchable
entity is indexed under its entity-type index and primary-key document id
with its searchable fields, every deleted searchable entity is absent from
that index, and objects without the searchable capability trigger no index
operation — replaying only the searchable part of the snapshot yields the
identical engine state. -/
theorem after_commit_spec :
    (∀ (changes : SessionChanges) (idx : List IndexEntry),
        (((changes.added ++ changes.updated).filter (fun o => o.searchable)).map
            (fun o => (o.tablename, o.entityId))).Nodup →
        (∀ o' ∈ changes.deleted, o'.searchable = true →
          ∀ o ∈ changes.added ++ changes.updated, o.searchable = true →
            ¬(o'.tablename = o.tablename ∧ o'.entityId = o.entityId)) →
        ∀ e ∈ changes.added ++ changes.updated, e.searchable = true →
          esLookupO (after_commit changes (some idx)) e.tablename e.entityId
            = some { index := e.tablename, docId := e.entityId, document := e.document })
  ∧ (∀ (changes : SessionChanges) (idx : List IndexEntry),
        ∀ e ∈ changes.deleted, e.searchable = true →
          esLookupO (after_commit changes (some idx)) e.tablename e.entityId = none)
  ∧ (∀ (changes : SessionChanges) (es : Elasticsearch),
        after_commit { added := changes.added.filter (fun o => o.searchable),
                       updated := changes.updated.filter (fun o => o.searchable),
                       deleted := changes.deleted.filter (fun o => o.searchable) } es
          = after_commit changes es) := by
  refine ⟨?_, ?_, ?_⟩
  · intro changes idx hnd hdisj e hmem hse
    rw [after_commit_some]
    simp only [esLookupO]
    rw [esLookup_foldl_deleteE_untouched]
    · exact esLookup_foldl_addE_hit _ _ hnd e hmem hse
    · rintro o' hmem' ⟨hs', hk1, hk2⟩
      exact hdisj o' hmem' hs' e hmem hse ⟨hk1, hk2⟩
  · intro changes idx e hmem hse
    rw [after_commit_some]
    simp only [esLookupO]
    exact esLookup_foldl_deleteE_hit _ _ e hmem hse
  · intro changes es
    simp only [after_commit]
    rw [foldl_apply_add_filter, foldl_apply_add_filter, foldl_apply_delete_filter]

/-- Concrete posts and a session snapshot for the C4 witness. -/
def samplePost1 : Post :=
  { id := 1, body := "hello world", timestamp := 100, user_id := 1 }

def samplePost2 : Post :=
  { id := 2, body := "old news", timestamp := 50, user_id := 2 }

def sampleChanges : SessionChanges :=
  { added := [.post samplePost1, .user alice], updated := [],
    deleted := [.post samplePost2] }

/-- Witness for C4 on a concrete committed session. -/
theorem after_commit_spec_witness :
    esLookupO (after_commit sampleChanges (some [])) "post" 1
      = some { index := "post", docId := 1, document := [("body", "hello world")] }
  ∧ esLookupO (after_commit sampleChanges (some [])) "post" 2 = none
  ∧ after_commit { added := sampleChanges.added.filter (fun o => o.searchable),
                   updated := sampleChanges.updated.filter (fun o => o.searchable),
                   deleted := sampleChanges.deleted.filter (fun o => o.searchable) }
        (some [])
      = after_commit sampleChanges (some []) :=
  ⟨after_commit_spec.1 sampleChanges [] (by decide) (by decide)
      (.post samplePost1) (by decide) (by decide),
   after_commit_spec.2.1 sampleChanges [] (.post samplePost2) (by decide) (by decide),
   after_commit_spec.2.2 sampleChanges (some [])⟩

/-- The CASE expression of SearchableMixin.search: it maps a row's id to
the position of that id in the engine's ranked list (the first matching
WHEN clause). -/
def caseOrder (ids : List Nat) (p : Post) : Nat :=
  ids.indexOf p.id

instance (ids : List Nat) :
    DecidableRel (fun a b : Post => caseOrder ids a ≤ caseOrder ids b) :=
  fun a b => Nat.decLe _ _

instance (ids : List Nat) :
    IsTotal Post (fun a b : Post => caseOrder ids a ≤ caseOrder ids b) :=
  ⟨fun a b => Nat.le_total _ _⟩

instance (ids : List Nat) :
    IsTrans Post (fun a b : Post => caseOrder ids a ≤ caseOrder ids b) :=
  ⟨fun _ _ _ h1 h2 => Nat.le_trans h1 h2⟩

/-- The rehydration query of SearchableMixin.search: select the posts whose
id is among the engine's ids, ordered by the CASE expression, that is by
position in the engine's ranked list. -/
def search_fetch (posts : List Post) (ids : List Nat) : List Post :=
  List.insertionSort (fun a b => caseOrder ids a ≤ caseOrder ids b)
    (posts.filter (fun p => decide (p.id ∈ ids)))

/-- SearchableMixin.search for the Post model: query the engine, answer
([], 0) when the total is zero, else rehydrate the ranked ids against the
relational store. -/
def search (oracle : SearchOracle) (es : Elasticsearch) (posts : List Post)
    (expression : String) (page per_page : Nat) : List Post × Nat :=
  let res := query_index oracle es "post" expression page per_page
  if res.2 == 0 then ([], 0)
  else (search_fetch posts res.1, res.2)

/-- C5: with the engine unconfigured or unavailable, indexing operations
are no-ops and search answers an empty hit list with total 0; every one of
these operations is total, so no error reaches the caller and no
transaction is aborted. -/
theorem search_engine_unavailable :
    (∀ (index : String) (e : Entity), add_to_index none index e = none)
  ∧ (∀ (index : String) (e : Entity), remove_from_index none index e = none)
  ∧ (∀ (oracle : SearchOracle) (index query : String) (page per_page : Nat),
        query_index oracle none index query page per_page = ([], 0))
  ∧ (∀ (oracle : SearchOracle) (posts : List Post) (expression : String)
        (page per_page : Nat),
        search oracle none posts expression page per_page = ([], 0)) :=
  ⟨fun _ _ => rfl, fun _ _ => rfl, fun _ _ _ _ _ => rfl, fun _ _ _ _ _ => rfl⟩

theorem find_post_by_id_of_mem {l : List Post} (hnd : (l.map Post.id).Nodup)
    {p : Post} (hmem : p ∈ l) :
    l.find? (fun x => x.id == p.id) = some p := by
  induction l with
  | nil => cases hmem
  | cons a l ih =>
    rcases List.mem_cons.mp hmem with h | h
    · subst h
      exact List.find?_cons_of_pos _ (by simp)
    · rw [List.map_cons, List.nodup_cons] at hnd
      have hne : a.id ≠ p.id := by
        intro hc
        exact hnd.1 (hc ▸ List.mem_map_of_mem Post.id h)
      rw [List.find?_cons_of_neg _ (by simp [hne])]
      exact ih hnd.2 h

/-- C6: for any ranked id list coming back from the engine, rehydration
returns the store's entities in exactly the engine's relevance order — the
result is the ranked list of ids mapped through store lookup, with ids no
longer present in the store silently dropped. -/
theorem search_fetch_relevance_order :
    ∀ (posts : List Post) (ids : List Nat),
      ids.Nodup → (posts.map Post.id).Nodup →
      search_fetch posts ids
        = ids.filterMap (fun i => posts.find? (fun p => p.id == i)) := by
  intro posts ids hids hpids
  have hpostsnd : posts.Nodup := List.Nodup.of_map _ hpids
  have hmemL : ∀ p : Post, p ∈ posts.filter (fun p => decide (p.id ∈ ids)) ↔
      p ∈ posts ∧ p.id ∈ ids := by
    intro p
    rw [List.mem_filter]
    simp
  have hmemR : ∀ p : Post,
      p ∈ ids.filterMap (fun i => posts.find? (fun x => x.id == i)) ↔
      p ∈ posts ∧ p.id ∈ ids := by
    intro p
    rw [List.mem_filterMap]
    constructor
    · rintro ⟨i, hi, hfind⟩
      have hpred := List.find?_some hfind
      have hpm := List.mem_of_find?_eq_some hfind
      simp only [beq_iff_eq] at hpred
      exact ⟨hpm, hpred ▸ hi⟩
    · rintro ⟨hpm, hpid⟩
      exact ⟨p.id, hpid, find_post_by_id_of_mem hpids hpm⟩
  have hLnd : (posts.filter (fun p => decide (p.id ∈ ids))).Nodup :=
    hpostsnd.filter _
  have hRnd : (ids.filterMap (fun i => posts.find? (fun x => x.id == i))).Nodup := by
    apply List.Pairwise.filterMap (fun i => posts.find? (fun x => x.id == i)) ?_ hids
    intro a a' hne b hb b' hb'
    have h1 : b.id = a := by
      have := List.find?_some (Option.mem_def.mp hb)
      simpa using this
    have h2 : b'.id = a' := by
      have := List.find?_some (Option.mem_def.mp hb')
      simpa using this
    intro hc
    exact hne (h1 ▸ h2 ▸ congrArg Post.id hc)
  have hperm : List.Perm (search_fetch posts ids)
      (ids.filterMap (fun i => posts.find? (fun x => x.id == i))) := by
    refine (List.perm_insertionSort _ _).trans ?_
    rw [List.perm_ext_iff_of_nodup hLnd hRnd]
    intro p
    rw [hmemL, hmemR]
  have hkeyinj : ∀ p ∈ posts, p.id ∈ ids → ∀ q ∈ posts, q.id ∈ ids →
      caseOrder ids p = caseOrder ids q → p = q := by
    intro p hp hpid q hq hqid hk
    have hid : p.id = q.id := (List.indexOf_inj hpid hqid).mp hk
    exact List.inj_on_of_nodup_map hpids hp hq hid
  haveI : IsAntisymm Post
      (fun a b : Post => caseOrder ids a < caseOrder ids b ∨ a = b) := by
    constructor
    intro a b hab hba
    rcases hab with hab | hab
    · rcases hba with hba | hba
      · exact absurd hab (Nat.lt_asymm hba)
      · exact hba.symm
    · exact hab
  have hmemS : ∀ p ∈ search_fetch posts ids, p ∈ posts ∧ p.id ∈ ids := by
    intro p hp
    rw [search_fetch, List.mem_insertionSort] at hp
    exact (hmemL p).mp hp
  have hsortS : List.Pairwise
      (fun a b : Post => caseOrder ids a < caseOrder ids b ∨ a = b)
      (search_fetch posts ids) := by
    have hs : List.Sorted (fun a b : Post => caseOrder ids a ≤ caseOrder ids b)
        (search_fetch posts ids) := List.sorted_insertionSort _ _
    refine List.Pairwise.imp_of_mem ?_ hs
    intro a b ha hb hle
    by_cases hk : caseOrder ids a = caseOrder ids b
    · right
      rcases hmemS a ha with ⟨ha1, ha2⟩
      rcases hmemS b hb with ⟨hb1, hb2⟩
      exact hkeyinj a ha1 ha2 b hb1 hb2 hk
    · left
      exact Nat.lt_of_le_of_ne hle hk
  have hsortR : List.Pairwise
      (fun a b : Post => caseOrder ids a < caseOrder ids b ∨ a = b)
      (ids.filterMap (fun i => posts.find? (fun x => x.id == i))) := by
    have hidpair : List.Pairwise (fun i j => ids.indexOf i < ids.indexOf j) ids := by
      rw [List.pairwise_iff_getElem]
      intro a b ha hb hab
      rw [List.indexOf_getElem hids a ha, List.indexOf_getElem hids b hb]
      exact hab
    have hstrict : List.Pairwise
        (fun a b : Post => caseOrder ids a < caseOrder ids b)
        (ids.filterMap (fun i => posts.find? (fun x => x.id == i))) := by
      apply List.Pairwise.filterMap (fun i => posts.find? (fun x => x.id == i)) ?_ hidpair
      intro a a' hlt b hb b' hb'
      have h1 : b.id = a := by
        have := List.find?_some (Option.mem_def.mp hb)
        simpa using this
      have h2 : b'.id = a' := by
        have := List.find?_some (Option.mem_def.mp hb')
        simpa using this
      show caseOrder ids b < caseOrder ids b'
      rw [caseOrder, caseOrder, h1, h2]
      exact hlt
    exact hstrict.imp (fun h => Or.inl h)
  exact List.eq_of_perm_of_sorted hperm hsortS hsortR

/-- Witness for C6: rehydration of a concrete ranked id list, with one id
missing from the store, in engine order. -/
theorem search_fetch_relevance_order_witness :
    search_fetch [samplePost1, samplePost2] [2, 9, 1]
      = [2, 9, 1].filterMap
          (fun i => [samplePost1, samplePost2].find? (fun p => p.id == i)) :=
  search_fetch_relevance_order [samplePost1, samplePost2] [2, 9, 1]
    (by decide) (by decide)

/-- The inner join of User.following_posts: Post joined with its author,
the Author alias (join Post.author). -/
def fp_joined (db : DB) : List (Post × User) :=
  db.posts.flatMap (fun p =>
    (db.users.filter (fun a => a.id == p.user_id)).map (fun a => (p, a)))

/-- The rows of Author.followers for one author: users linked to the author
through the followers association (the Follower alias). -/
def fp_followers (db : DB) (a : User) : List User :=
  db.users.filter (fun f => decide ((f.id, a.id) ∈ db.follows))

/-- The left outer join of User.following_posts (isouter=True): each joined
row paired with each follower of its author, or with NULL when the author
has none. -/
def fp_outer (db : DB) : List (Post × User × Option User) :=
  (fp_joined db).flatMap (fun pa =>
    if (fp_followers db pa.2).isEmpty then [(pa.1, pa.2, none)]
    else (fp_followers db pa.2).map (fun f => (pa.1, pa.2, some f)))

/-- The WHERE clause of User.following_posts: Follower.id == self.id OR
Author.id == self.id; the NULL follower of the outer join satisfies neither
equality. -/
def fp_where (db : DB) (self : User) : List (Post × User × Option User) :=
  (fp_outer db).filter (fun row =>
    (match row.2.2 with
     | some f => f.id == self.id
     | none => false) || row.2.1.id == self.id)

instance : DecidableRel (fun p q : Post => q.timestamp ≤ p.timestamp) :=
  fun p q => Int.decLe _ _

instance : IsTotal Post (fun p q : Post => q.timestamp ≤ p.timestamp) :=
  ⟨fun a b => Int.le_total b.timestamp a.timestamp⟩

instance : IsTrans Post (fun p q : Post => q.timestamp ≤ p.timestamp) :=
  ⟨fun _ _ _ h1 h2 => le_trans h2 h1⟩

/-- User.following_posts: the filtered outer join projected onto Post,
grouped by Post (removing duplicate rows) and ordered by creation
timestamp descending. -/
def following_posts (db : DB) (self : User) : List Post :=
  List.insertionSort (fun p q => q.timestamp ≤ p.timestamp)
    ((fp_where db self).map (fun row => row.1)).dedup

theorem mem_fp_joined {db : DB} {p : Post} {a : User} :
    (p, a) ∈ fp_joined db ↔ p ∈ db.posts ∧ a ∈ db.users ∧ a.id = p.user_id := by
  rw [fp_joined, List.mem_flatMap]
  constructor
  · rintro ⟨p0, hp0, hmem⟩
    rcases List.mem_map.mp hmem with ⟨a0, ha0, heq⟩
    rcases List.mem_filter.mp ha0 with ⟨ha0u, ha0id⟩
    rcases Prod.mk.injEq .. ▸ heq with ⟨h1, h2⟩
    subst h1; subst h2
    exact ⟨hp0, ha0u, by simpa using ha0id⟩
  · rintro ⟨hp, ha, haid⟩
    exact ⟨p, hp, List.mem_map.mpr ⟨a, List.mem_filter.mpr ⟨ha, by simp [haid]⟩, rfl⟩⟩

theorem mem_fp_where_proj {db : DB} {self : User} {p : Post} :
    p ∈ (fp_where db self).map (fun row => row.1) ↔
      ∃ a ∈ db.users, a.id = p.user_id ∧ p ∈ db.posts ∧
        (a.id = self.id ∨
          ∃ f ∈ db.users, f.id = self.id ∧ (f.id, a.id) ∈ db.follows) := by
  rw [List.mem_map]
  constructor
  · rintro ⟨row, hrow, hrp⟩
    rcases List.mem_filter.mp hrow with ⟨houter, hcond⟩
    rcases List.mem_flatMap.mp houter with ⟨pa, hpa, hrow2⟩
    by_cases hfs : (fp_followers db pa.2).isEmpty = true
    · rw [if_pos hfs] at hrow2
      rw [List.mem_singleton] at hrow2
      subst hrow2
      simp only at hrp
      subst hrp
      rcases mem_fp_joined.mp (by exact hpa) with ⟨hp, ha, haid⟩
      refine ⟨pa.2, ha, haid, hp, ?_⟩
      left
      simpa using hcond
    · rw [if_neg hfs] at hrow2
      rcases List.mem_map.mp hrow2 with ⟨f, hf, heqrow⟩
      subst heqrow
      simp only at hrp
      subst hrp
      rcases mem_fp_joined.mp (by exact hpa) with ⟨hp, ha, haid⟩
      rcases List.mem_filter.mp hf with ⟨hfu, hfid⟩
      refine ⟨pa.2, ha, haid, hp, ?_⟩
      simp only [Bool.or_eq_true, beq_iff_eq] at hcond
      rcases hcond with hc | hc
      · right
        exact ⟨f, hfu, hc, by simpa using hfid⟩
      · left
        exact hc
  · rintro ⟨a, ha, haid, hp, hor⟩
    have hpa : ((p, a) : Post × User) ∈ fp_joined db := mem_fp_joined.mpr ⟨hp, ha, haid⟩
    rcases hor with hself | ⟨f, hfu, hfid, hedge⟩
    · by_cases hfs : (fp_followers db a).isEmpty = true
      · refine ⟨(p, a, none), ?_, rfl⟩
        rw [fp_where, List.mem_filter]
        constructor
        · rw [fp_outer, List.mem_flatMap]
          exact ⟨(p, a), hpa, by rw [if_pos hfs]; exact List.mem_singleton.mpr rfl⟩
        · simp [hself]
      · have hex : ∃ f0, f0 ∈ fp_followers db a :=
          List.isEmpty_eq_false_iff_exists_mem.mp (Bool.eq_false_iff.mpr hfs)
        rcases hex with ⟨f0, hf0⟩
        refine ⟨(p, a, some f0), ?_, rfl⟩
        rw [fp_where, List.mem_filter]
        constructor
        · rw [fp_outer, List.mem_flatMap]
          refine ⟨(p, a), hpa, ?_⟩
          rw [if_neg hfs]
          exact List.mem_map.mpr ⟨f0, hf0, rfl⟩
        · simp [hself]
    · have hffs : f ∈ fp_followers db a := by
        rw [fp_followers, List.mem_filter]
        exact ⟨hfu, by simp [hedge]⟩
      have hfs : ¬((fp_followers db a).isEmpty = true) := by
        rw [List.isEmpty_iff]
        intro hc
        rw [hc] at hffs
        cases hffs
      refine ⟨(p, a, some f), ?_, rfl⟩
      rw [fp_where, List.mem_filter]
      constructor
      · rw [fp_outer, List.mem_flatMap]
        refine ⟨(p, a), hpa, ?_⟩
        rw [if_neg hfs]
        exact List.mem_map.mpr ⟨f, hffs, rfl⟩
      · simp [hfid]

/-- C1: under referential integrity (the account exists and every post has
an author row), the timeline query returns exactly the posts authored by
the account or by an account it follows, every post of the account
included, without duplicates — even through self-follows or multiple join
paths — ordered by creation timestamp descending. -/
theorem following_posts_spec :
    ∀ (db : DB) (self : User),
      self ∈ db.users →
      (∀ p ∈ db.posts, ∃ a ∈ db.users, a.id = p.user_id) →
      (∀ p : Post, p ∈ following_posts db self ↔
          p ∈ db.posts ∧ (p.user_id = self.id ∨ (self.id, p.user_id) ∈ db.follows))
      ∧ (following_posts db self).Nodup
      ∧ List.Sorted (fun p q : Post => q.timestamp ≤ p.timestamp)
          (following_posts db self) := by
  intro db self hself hfk
  refine ⟨?_, ?_, ?_⟩
  · intro p
    rw [following_posts, List.mem_insertionSort, List.mem_dedup, mem_fp_where_proj]
    constructor
    · rintro ⟨a, _, haid, hp, hor⟩
      refine ⟨hp, ?_⟩
      rcases hor with hc | ⟨f, _, hfid, hedge⟩
      · left
        rw [← haid]
        exact hc
      · right
        rw [← haid, ← hfid]
        exact hedge
    · rintro ⟨hp, hor⟩
      rcases hfk p hp with ⟨a, ha, haid⟩
      refine ⟨a, ha, haid, hp, ?_⟩
      rcases hor with hc | hedge
      · left
        rw [haid]
        exact hc
      · right
        exact ⟨self, hself, rfl, by rw [haid]; exact hedge⟩
  · have hperm := List.perm_insertionSort
      (fun p q : Post => q.timestamp ≤ p.timestamp)
      ((fp_where db self).map (fun row => row.1)).dedup
    rw [following_posts]
    exact hperm.nodup_iff.mpr (List.nodup_dedup _)
  · rw [following_posts]
    exact List.sorted_insertionSort _ _

/-- Witness for C1 at a concrete database: alice follows bob, both have a
post, and carol's post is excluded. -/
def timelineDB : DB :=
  { users := [alice, bob, carol],
    posts := [{ id := 1, body := "a", timestamp := 10, user_id := 1 },
              { id := 2, body := "b", timestamp := 20, user_id := 2 },
              { id := 3, body := "c", timestamp := 30, user_id := 3 }],
    follows := [(1, 2)], notifications := [], tasks := [] }

theorem following_posts_spec_witness :
    (({ id := 1, body := "a", timestamp := 10, user_id := 1 } : Post)
        ∈ following_posts timelineDB alice
      ↔ ({ id := 1, body := "a", timestamp := 10, user_id := 1 } : Post)
          ∈ timelineDB.posts ∧ (1 = alice.id ∨ (alice.id, 1) ∈ timelineDB.follows))
  ∧ (following_posts timelineDB alice).Nodup
  ∧ List.Sorted (fun p q : Post => q.timestamp ≤ p.timestamp)
      (following_posts timelineDB alice) :=
  ⟨(following_posts_spec timelineDB alice (by decide)
      (by decide)).1 { id := 1, body := "a", timestamp := 10, user_id := 1 },
   (following_posts_spec timelineDB alice (by decide) (by decide)).2.1,
   (following_posts_spec timelineDB alice (by decide) (by decide)).2.2⟩

end Microblog
